import Mathlib

/-
  Verification of the docker_auth token service against its specification.

  Shallow embedding of:
    * the static-users authenticator (`staticUsersAuth.Authenticate`,
      `Requirements.String`),
    * the GitHub OAuth authenticator (`GitHubAuth.Authenticate`,
      `validateServerToken`, `fetchTeams`, `parseLinkHeader`),
    * the configuration validator and loader (`validate`, `LoadConfig`).

  Go strings that are only ever split on single-character separators are
  modelled as `List Char`; Go maps as association lists or functions;
  Go `error` results as `Option`/`Except` over inductive error types;
  external library calls (bcrypt, JSON marshalling, file system, network)
  as explicit function parameters (oracles).
-/

set_option maxHeartbeats 1000000

/-- `api.Labels`: Go `map[string][]string`, modelled as an association list. -/
abbrev Labels := List (String × List String)

/-- `api.PasswordString`: an opaque secret string. -/
abbrev PasswordString := String

/-- Modelled from the spec: the error taxonomy of the `api` package
(`NoMatch`, `WrongPass`, `ExpiredToken`), whose source file is not part of
the corpus; `msg` stands for any other Go error with the given message. -/
inductive AuthErr where
  | noMatch
  | wrongPass
  | expiredToken
  | msg (s : String)
deriving DecidableEq, Repr

/-- `authn.Requirements`: password hash (a Go pointer, hence `Option`)
plus labels. -/
structure Requirements where
  password : Option PasswordString
  labels : Labels
deriving DecidableEq, Repr

/-- `authn.staticUsersAuth`: the static user map.  Go `map[string]*Requirements`
is modelled as an association list; a missing key is Go's `nil` entry. -/
structure staticUsersAuth where
  users : List (String × Requirements)
deriving Repr

/-- `staticUsersAuth.Authenticate`.  `bcryptMatch hash pw` is the oracle for
`bcrypt.CompareHashAndPassword(hash, pw) == nil` (comparison success). -/
def staticUsersAuth.Authenticate (bcryptMatch : String → String → Bool)
    (sua : staticUsersAuth) (user : String) (password : PasswordString) :
    Bool × Option Labels × Option AuthErr :=
  match sua.users.lookup user with
  | none => (false, none, some .noMatch)
  | some reqs =>
    match reqs.password with
    | some hash =>
      if ¬ bcryptMatch hash password then (false, none, none)
      else (true, some reqs.labels, none)
    | none => (true, some reqs.labels, none)

/-- `Requirements.String`: the method's value receiver is a copy of `r`;
the copy's password pointer is replaced by a pointer to the literal `"***"`
before marshalling and restored afterwards.  `marshal` is the oracle for
`json.Marshal`.  The result is the rendered string together with the final
state of the receiver copy. -/
def Requirements.stringRepr (marshal : Requirements → String)
    (r : Requirements) : String × Requirements :=
  let p := r.password
  let masked : Requirements :=
    match p with
    | some _ => { r with password := some "***" }
    | none => r
  let b := marshal masked
  (b, { masked with password := p })

/-- Modelled from the spec: `TokenDBValue`
`{TokenType, AccessToken, RefreshToken?, ValidUntil, Labels}` — the TokenDB
implementation file is not part of the corpus.  Time instants are `Int`. -/
structure TokenDBValue where
  tokenType : String
  accessToken : String
  refreshToken : Option String
  validUntil : Int
  labels : Labels
deriving DecidableEq, Repr

/-- Modelled from the spec: the TokenDB keyed store, one current value per
user (`GetValue` is lookup). -/
abbrev DBMap := String → Option TokenDBValue

/-- Modelled from the spec: `StoreToken(user, v, generateDP)` writes `v` as
the user's current value.  The `generateDP` flag only governs DP rotation,
which is orthogonal to the stored `TokenDBValue`. -/
def storeToken (db : DBMap) (user : String) (v : TokenDBValue)
    (generateDP : Bool) : DBMap :=
  fun u => if u = user then some v else db u

/-- `GitHubAuth.validateServerToken`: re-read the stored value, confirm the
stored access token with the upstream provider (`provider` is the oracle for
`validateAccessToken`, returning the login the token identifies), require the
same username, then advance `ValidUntil` to `now + RevalidateAfter` and write
the value back with `StoreToken(user, v, false)`.  Returns the renewed value
and the updated store. -/
def validateServerToken (provider : String → Except String String)
    (now revalidateAfter : Int) (db : DBMap) (user : String) :
    Except String (TokenDBValue × DBMap) :=
  match db user with
  | none => .error "no db value, please sign out and sign in again"
  | some v =>
    match provider v.accessToken with
    | .error e => .error ("server token invalid: " ++ e)
    | .ok tokenUser =>
      if tokenUser ≠ user then .error "found token for wrong user"
      else
        let v2 := { v with validUntil := now + revalidateAfter }
        .ok (v2, storeToken db user v2 false)

/-- `GitHubAuth.Authenticate`: `vres` is the result of
`db.ValidateToken(user, password)` (`none` = success).  On `ExpiredToken` the
server token is revalidated; any other error is returned as-is.  Finally the
(possibly updated) store is read again and the stored labels returned.
The result pairs the Go return triple with the final store. -/
def GitHubAuth.Authenticate (provider : String → Except String String)
    (now revalidateAfter : Int) (db : DBMap) (vres : Option AuthErr)
    (user : String) : (Bool × Option Labels × Option AuthErr) × DBMap :=
  let afterValidate : DBMap → (Bool × Option Labels × Option AuthErr) × DBMap :=
    fun db2 =>
      match db2 user with
      | none => ((false, none, some (.msg "no db value, please sign out and sign in again")), db2)
      | some v => ((true, some v.labels, none), db2)
  match vres with
  | some .expiredToken =>
    match validateServerToken provider now revalidateAfter db user with
    | .error e => ((false, none, some (.msg e)), db)
    | .ok (_, db2) => afterValidate db2
  | some e => ((false, none, some e), db)
  | none => afterValidate db

/-- Go `strings.Split` specialised to a single-character separator (the
source only splits on `","` and `";"`).  `splitChar c s` never returns `[]`;
splitting the empty string yields `[[]]`, as in Go. -/
def splitChar (c : Char) : List Char → List (List Char)
  | [] => [[]]
  | x :: xs =>
    let r := splitChar c xs
    if x = c then [] :: r
    else (x :: r.headD []) :: r.tail

/-- Go `strings.TrimSpace` (leading and trailing whitespace removed; the
inputs in question are ASCII). -/
def trimSpace (l : List Char) : List Char :=
  ((l.dropWhile Char.isWhitespace).reverse.dropWhile Char.isWhitespace).reverse

/-- `removeSubstringsFromString`, specialised to the single-character strip
strings actually passed (`"<"` and `">"`): `strings.Replace(s, c, "", -1)`
for a one-character `c` removes every occurrence of that character. -/
def removeSubstringsFromString (sourceStr : List Char)
    (stringsToStrip : List Char) : List Char :=
  stringsToStrip.foldl (fun s c => s.filter (fun x => x ≠ c)) sourceStr

/-- Boolean prefix test on character lists. -/
def isPrefixB : List Char → List Char → Bool
  | [], _ => true
  | _ :: _, [] => false
  | a :: as, b :: bs => a = b && isPrefixB as bs

/-- Go `strings.Contains`: `sub` occurs contiguously in `s`. -/
def strContains : (s sub : List Char) → Bool
  | [], sub => sub.isEmpty
  | x :: t, sub => isPrefixB sub (x :: t) || strContains t sub

/-- `authn.linkHeader`: pagination URLs from a `Link` header.  The Go zero
value has all fields empty. -/
structure linkHeader where
  First : List Char
  Last : List Char
  Next : List Char
  Prev : List Char
deriving DecidableEq, Repr

def linkHeader.empty : linkHeader := ⟨[], [], [], []⟩

/-- The body of `parseLinkHeader`'s inner loop for one comma-separated item.
`linkData[1]` is accessed unconditionally in the source; an item without a
`";"` makes that index access panic, modelled as `none`. -/
def processLinkItem (lH : linkHeader) (linkItem : List Char) : Option linkHeader :=
  match splitChar ';' linkItem with
  | [] => none
  | first :: rest =>
    let trimmedUrl := removeSubstringsFromString (trimSpace first) ['<', '>']
    match rest with
    | [] => none
    | linkVal :: _ =>
      if strContains linkVal "first".data then some { lH with First := trimmedUrl }
      else if strContains linkVal "last".data then some { lH with Last := trimmedUrl }
      else if strContains linkVal "next".data then some { lH with Next := trimmedUrl }
      else if strContains linkVal "prev".data then some { lH with Prev := trimmedUrl }
      else some lH

/-- `authn.parseLinkHeader`: fold the loop body over the comma-separated
items of every header line.  The Go function always returns a nil error;
the only abnormal outcome is the index panic, modelled as `none`. -/
def parseLinkHeader (linkLines : List (List Char)) : Option linkHeader :=
  linkLines.foldlM
    (fun lH linkLine => (splitChar ',' linkLine).foldlM processLinkItem lH)
    linkHeader.empty

/-- The four pagination relations recognised by `parseLinkHeader`. -/
inductive LinkRel where
  | first
  | last
  | next
  | prev
deriving DecidableEq, Repr

def LinkRel.kw : LinkRel → List Char
  | .first => "first".data
  | .last => "last".data
  | .next => "next".data
  | .prev => "prev".data

/-- Field selector of `linkHeader` by relation. -/
def linkHeader.get : linkHeader → LinkRel → List Char
  | lH, .first => lH.First
  | lH, .last => lH.Last
  | lH, .next => lH.Next
  | lH, .prev => lH.Prev

/-- Field update of `linkHeader` by relation. -/
def linkHeader.set : linkHeader → LinkRel → List Char → linkHeader
  | lH, .first, u => { lH with First := u }
  | lH, .last, u => { lH with Last := u }
  | lH, .next, u => { lH with Next := u }
  | lH, .prev, u => { lH with Prev := u }

/-- The `rel="KIND"` part of a well-formed Link header item. -/
def relPart (r : LinkRel) : List Char :=
  " rel=".data ++ '"' :: (r.kw ++ ['"'])

/-- A well-formed Link header item `<URL>; rel="KIND"`, with optional
leading whitespace `ws`. -/
def mkLinkItem (ws u : List Char) (r : LinkRel) : List Char :=
  (ws ++ '<' :: (u ++ ['>'])) ++ ';' :: relPart r

/-- Comma-join of the items of one header line. -/
def joinComma (c : Char) : List (List Char) → List Char
  | [] => []
  | [a] => a
  | a :: b :: rest => a ++ c :: joinComma c (b :: rest)

/-- The net effect of processing a list of well-formed items in order. -/
def applyItems : linkHeader → List (List Char × LinkRel) → linkHeader
  | acc, [] => acc
  | acc, p :: rest => applyItems (acc.set p.2 p.1) rest

/-- `authn.GitHubOrganization`. -/
structure GitHubOrganization where
  login : String
  id : Int
deriving DecidableEq, Repr

/-- `authn.ParentGitHubTeam`. -/
structure ParentGitHubTeam where
  id : Int
  name : String
  slug : String
deriving DecidableEq, Repr

/-- `authn.GitHubTeam`: `Organization` and `Parent` are Go pointers. -/
structure GitHubTeam where
  id : Int
  url : String
  name : String
  slug : String
  organization : Option GitHubOrganization
  parent : Option ParentGitHubTeam
deriving DecidableEq, Repr

/-- Insertion into the Go set `organizationTeamsMap` (`map[string]bool`),
modelled as a duplicate-free key list in first-insertion order; the theorems
about it use only membership and duplicate-freedom, which hold in whatever
order Go map iteration later emits the keys. -/
def mapInsert (m : List String) (k : String) : List String :=
  if k ∈ m then m else m ++ [k]

/-- The team-collection loop of `fetchTeams` (lines after pagination):
for every team, `item.Organization.Login` is dereferenced — a nil
`Organization` is a panic, modelled as `none`; matching teams contribute
their slug and (when present) their parent's slug. -/
def collectOrgTeams (org : String) : List GitHubTeam → List String → Option (List String)
  | [], m => some m
  | t :: rest, m =>
    match t.organization with
    | none => none
    | some o =>
      if o.login = org then
        let m1 := mapInsert m t.slug
        let m2 :=
          match t.parent with
          | some p => mapInsert m1 p.slug
          | none => m1
        collectOrgTeams org rest m2
      else collectOrgTeams org rest m

/-- `GitHubAuth.fetchTeams`, with the paginated provider responses already
concatenated into `allTeams` (the HTTP pagination walk is the part of the
function that only concatenates pages); an empty configured organization
returns nil before anything is fetched. -/
def fetchTeams (org : String) (allTeams : List GitHubTeam) : Option (List String) :=
  if org = "" then some []
  else collectOrgTeams org allTeams []

/-- What one team contributes to the result of `fetchTeams`. -/
def teamYields (org : String) (t : GitHubTeam) (x : String) : Prop :=
  (∃ o, t.organization = some o ∧ o.login = org) ∧
  (x = t.slug ∨ ∃ p, t.parent = some p ∧ p.slug = x)

/-- `server.LetsEncryptConfig`. -/
structure LetsEncryptConfig where
  host : String
  email : String
  cacheDir : String
deriving DecidableEq, Repr

/-- `server.ServerConfig` (the runtime key fields live in the loader's
result, not here). -/
structure ServerConfig where
  listenAddress : String
  net : String
  pathPrefix : String
  realIPHeader : String
  realIPPos : Int
  certFile : String
  keyFile : String
  hsts : Bool
  tlsMinVersion : String
  tlsCurvePreferences : Option (List String)
  tlsCipherSuites : Option (List String)
  letsEncrypt : LetsEncryptConfig
deriving DecidableEq, Repr

/-- `server.TokenConfig`. -/
structure TokenConfig where
  issuer : String
  certFile : String
  keyFile : String
  expiration : Int
deriving DecidableEq, Repr

/-- `authn.GoogleAuthConfig`, modelled from the fields `validate` reads
(the source file is not part of the corpus).  Durations are in seconds. -/
structure GoogleAuthConfig where
  clientId : String
  clientSecret : String
  clientSecretFile : String
  tokenDB : String
  httpTimeout : Int
deriving DecidableEq, Repr

/-- `authn.GitHubGCSStoreConfig`. -/
structure GitHubGCSStoreConfig where
  bucket : String
  clientSecretFile : String
deriving DecidableEq, Repr

/-- `authn.GitHubRedisStoreConfig`: the two option pointers come from the
external redis library; only their nil-ness matters to `validate`. -/
structure GitHubRedisStoreConfig where
  clientOptions : Option Unit
  clusterOptions : Option Unit
deriving DecidableEq, Repr

/-- `authn.GitHubAuthConfig`.  Durations are in seconds. -/
structure GitHubAuthConfig where
  organization : String
  clientId : String
  clientSecret : String
  clientSecretFile : String
  tokenDB : String
  gcsTokenDB : Option GitHubGCSStoreConfig
  redisTokenDB : Option GitHubRedisStoreConfig
  httpTimeout : Int
  revalidateAfter : Int
  githubWebUri : String
  githubApiUri : String
  registryUrl : String
deriving DecidableEq, Repr

/-- `authn.OIDCAuthConfig`, modelled from the fields `validate` reads
(the source file is not part of the corpus). -/
structure OIDCAuthConfig where
  clientId : String
  clientSecret : String
  clientSecretFile : String
  tokenDB : String
  issuer : String
  redirectURL : String
  httpTimeout : Int
  userClaim : String
  scopes : Option (List String)
deriving DecidableEq, Repr

/-- `authn.GitlabAuthConfig`, modelled from the fields `validate` reads
(the source file is not part of the corpus); `validate` treats it exactly
like the GitHub config. -/
structure GitlabAuthConfig where
  clientId : String
  clientSecret : String
  clientSecretFile : String
  tokenDB : String
  gcsTokenDB : Option GitHubGCSStoreConfig
  redisTokenDB : Option GitHubRedisStoreConfig
  httpTimeout : Int
  revalidateAfter : Int
deriving DecidableEq, Repr

/-- `server.Config`.  Backends whose own config `validate` never inspects
beyond nil-ness (`ldap_auth`, `mongo_auth`, `xorm_auth`, `ext_auth`,
`plugin_authn`, the authorizers) are presence flags; their `Validate`
results are oracle fields of `Env`. -/
structure Config where
  server : ServerConfig
  token : TokenConfig
  users : Option (List (String × Requirements))
  googleAuth : Option GoogleAuthConfig
  gitHubAuth : Option GitHubAuthConfig
  oidcAuth : Option OIDCAuthConfig
  gitlabAuth : Option GitlabAuthConfig
  ldapAuth : Option Unit
  mongoAuth : Option Unit
  xormAuthn : Option Unit
  extAuth : Option Unit
  pluginAuthn : Option Unit
  acl : Option Unit
  aclMongo : Option Unit
  aclXorm : Option Unit
  extAuthz : Option Unit
  pluginAuthz : Option Unit
  casbinAuthz : Option Unit
deriving DecidableEq, Repr

/-- Oracles for the I/O and for the sub-validators whose sources are not in
the corpus: `readFile` is `ioutil.ReadFile`; the `Option String` fields are
the error (if any) returned by the corresponding `Validate` call on the
configured value. -/
structure Env where
  readFile : String → Except String String
  mongoAuthValidate : Option String
  xormAuthnValidate : Option String
  extAuthValidate : Option String
  validateACL : Option String
  aclMongoValidate : Option String
  aclXormValidate : Option String
  extAuthzValidate : Option String
  pluginAuthnValidate : Option String
  pluginAuthzValidate : Option String

/-- One constructor per `return`-an-error site of `validate`/`LoadConfig`;
`configErrMsg` renders the exact source message. -/
inductive ConfigErr where
  | serverAddrRequired
  | serverNetInvalid
  | pathPrefixNotAbsolute
  | tls13CipherSuites
  | tokenIssuerRequired
  | tokenExpirationNotPositive (n : Int)
  | noAuthMethods
  | mongoAuth (e : String)
  | xormAuthn (e : String)
  | googleSecretFile (file e : String)
  | googleRequired
  | githubSecretFile (file e : String)
  | githubRequired
  | githubGCSRequired
  | githubRedisRequired
  | oidcSecretFile (file e : String)
  | oidcRequired
  | gitlabSecretFile (file e : String)
  | gitlabRequired
  | gitlabGCSRequired
  | gitlabRedisRequired
  | extAuth (e : String)
  | aclEmpty
  | invalidACL (e : String)
  | aclMongo (e : String)
  | aclXorm (e : String)
  | extAuthz (e : String)
  | pluginAuthn (e : String)
  | pluginAuthz (e : String)
  | serverKeypairIncomplete
  | serverKeypairLoad (e : String)
  | tokenKeypairIncomplete
  | tokenKeypairLoad (e : String)
  | tokenKeypairNone
  | letsEncryptCacheDirRequired
  | letsEncryptCacheDirInvalid (d : String)
deriving DecidableEq, Repr

/-- The Go error message of each error site (braces escaped). -/
def configErrMsg : ConfigErr → String
  | .serverAddrRequired => "server.addr is required"
  | .serverNetInvalid => "server.net must be unix or tcp"
  | .pathPrefixNotAbsolute => "server.path_prefix must be an absolute path"
  | .tls13CipherSuites => "TLS 1.3 ciphersuites are not configurable"
  | .tokenIssuerRequired => "token.issuer is required"
  | .tokenExpirationNotPositive n => "expiration must be positive, got " ++ toString n
  | .noAuthMethods => "no auth methods are configured, this is probably a mistake. Use an empty user map if you really want to deny everyone."
  | .mongoAuth e => e
  | .xormAuthn e => e
  | .googleSecretFile f e => "could not read " ++ f ++ ": " ++ e
  | .googleRequired => "google_auth.\x7bclient_id,client_secret,token_db\x7d are required."
  | .githubSecretFile f e => "could not read " ++ f ++ ": " ++ e
  | .githubRequired => "github_auth.\x7bclient_id,client_secret,token_db\x7d are required"
  | .githubGCSRequired => "github_auth.\x7bclient_id,client_secret,gcs_token_db\x7bbucket,client_secret_file\x7d\x7d are required"
  | .githubRedisRequired => "github_auth.\x7bclient_id,client_secret,redis_token_db.\x7bredis_options,redis_cluster_options\x7d\x7d are required"
  | .oidcSecretFile f e => "could not read " ++ f ++ ": " ++ e
  | .oidcRequired => "oidc_auth.\x7bissuer,redirect_url,client_id,client_secret,token_db\x7d are required"
  | .gitlabSecretFile f e => "could not read " ++ f ++ ": " ++ e
  | .gitlabRequired => "gitlab_auth.\x7bclient_id,client_secret,token_db\x7d are required"
  | .gitlabGCSRequired => "gitlab_auth.\x7bclient_id,client_secret,gcs_token_db\x7bbucket,client_secret_file\x7d\x7d are required"
  | .gitlabRedisRequired => "gitlab_auth.\x7bclient_id,client_secret,redis_token_db.\x7bredis_options,redis_cluster_options\x7d\x7d are required"
  | .extAuth e => "bad ext_auth config: " ++ e
  | .aclEmpty => "ACL is empty, this is probably a mistake. Use an empty list if you really want to deny all actions"
  | .invalidACL e => "invalid ACL: " ++ e
  | .aclMongo e => e
  | .aclXorm e => e
  | .extAuthz e => e
  | .pluginAuthn e => "bad plugin_authn config: " ++ e
  | .pluginAuthz e => "bad plugin_authz config: " ++ e
  | .serverKeypairIncomplete => "failed to load server cert and key: both were not provided"
  | .serverKeypairLoad e => "failed to load server cert and key: " ++ e
  | .tokenKeypairIncomplete => "failed to load token cert and key: both were not provided"
  | .tokenKeypairLoad e => "failed to load token cert and key: " ++ e
  | .tokenKeypairNone => "failed to load token cert and key: none provided"
  | .letsEncryptCacheDirRequired => "server.letsencrypt.cache_dir is required"
  | .letsEncryptCacheDirInvalid d => "server.letsencrypt.cache_dir (" ++ d ++ ") does not exist or is not a directory"

/-- Go `strings.TrimSpace` on `String`. -/
def trimSpaceStr (s : String) : String :=
  ⟨trimSpace s.data⟩

/-- The `server.net` normalisation of `validate`: `""` defaults to `"tcp"`,
anything other than `"unix"`/`"tcp"` is rejected (`none`). -/
def checkNet (net : String) : Option String :=
  if net ≠ "unix" ∧ net ≠ "tcp" then
    (if net = "" then some "tcp" else none)
  else some net

/-- An `if c.X != nil { if err := c.X.Validate(...); err != nil { return err } }`
block: `present` is the nil check, `res` the oracle result of `Validate`. -/
def checkOptional (present : Bool) (res : Option String)
    (wrap : String → ConfigErr) : Except ConfigErr Unit :=
  if present then
    match res with
    | some e => .error (wrap e)
    | none => .ok ()
  else .ok ()

/-- The `ClientSecretFile` handling shared by all OAuth sections: a
non-empty file name is read (errors wrapped by `wrap`) and its trimmed
contents replace the client secret. -/
def resolveSecret (env : Env) (file secret : String)
    (wrap : String → String → ConfigErr) : Except ConfigErr String :=
  if file ≠ "" then
    match env.readFile file with
    | .error e => .error (wrap file e)
    | .ok contents => .ok (trimSpaceStr contents)
  else .ok secret

/-- `GCSTokenDB != nil && (Bucket == "" || ClientSecretFile == "")`. -/
def gcsIncomplete : Option GitHubGCSStoreConfig → Bool
  | some g => g.bucket = "" || g.clientSecretFile = ""
  | none => false

/-- `RedisTokenDB != nil && ClientOptions == nil && ClusterOptions == nil`. -/
def redisIncomplete : Option GitHubRedisStoreConfig → Bool
  | some r => r.clientOptions.isNone && r.clusterOptions.isNone
  | none => false

/-- Lines 153–177 of the validator: server address, net, path prefix,
TLS 1.3 cipher suites, token issuer and expiration, and the
at-least-one-auth-method check. -/
def checkBasics (c : Config) : Except ConfigErr Config :=
  if c.server.listenAddress = "" then .error .serverAddrRequired
  else
    match checkNet c.server.net with
    | none => .error .serverNetInvalid
    | some net =>
      let c2 := { c with server := { c.server with net := net } }
      if c2.server.pathPrefix ≠ "" ∧ ¬ c2.server.pathPrefix.startsWith "/" then
        .error .pathPrefixNotAbsolute
      else if (c2.server.tlsMinVersion = "0x0304" ∨ c2.server.tlsMinVersion = "TLS13") ∧
          c2.server.tlsCipherSuites ≠ none then
        .error .tls13CipherSuites
      else if c2.token.issuer = "" then .error .tokenIssuerRequired
      else if c2.token.expiration ≤ 0 then
        .error (.tokenExpirationNotPositive c2.token.expiration)
      else if c2.users = none ∧ c2.extAuth = none ∧ c2.googleAuth = none ∧
          c2.gitHubAuth = none ∧ c2.gitlabAuth = none ∧ c2.oidcAuth = none ∧
          c2.ldapAuth = none ∧ c2.mongoAuth = none ∧ c2.xormAuthn = none ∧
          c2.pluginAuthn = none then
        .error .noAuthMethods
      else .ok c2

/-- The `google_auth` section of `validate`. -/
def checkGoogleAuth (env : Env) (gac : GoogleAuthConfig) :
    Except ConfigErr GoogleAuthConfig :=
  match resolveSecret env gac.clientSecretFile gac.clientSecret
      ConfigErr.googleSecretFile with
  | .error e => .error e
  | .ok secret =>
    let g := { gac with clientSecret := secret }
    if g.clientId = "" ∨ g.clientSecret = "" ∨ g.tokenDB = "" then
      .error .googleRequired
    else .ok (if g.httpTimeout ≤ 0 then { g with httpTimeout := 10 } else g)

/-- The `github_auth` section of `validate`. -/
def checkGitHubAuth (env : Env) (ghac : GitHubAuthConfig) :
    Except ConfigErr GitHubAuthConfig :=
  match resolveSecret env ghac.clientSecretFile ghac.clientSecret
      ConfigErr.githubSecretFile with
  | .error e => .error e
  | .ok secret =>
    let g := { ghac with clientSecret := secret }
    if g.clientId = "" ∨ g.clientSecret = "" ∨
        (g.tokenDB = "" ∧ g.gcsTokenDB = none ∧ g.redisTokenDB = none) then
      .error .githubRequired
    else if g.clientId = "" ∨ g.clientSecret = "" ∨ gcsIncomplete g.gcsTokenDB then
      .error .githubGCSRequired
    else if g.clientId = "" ∨ g.clientSecret = "" ∨ redisIncomplete g.redisTokenDB then
      .error .githubRedisRequired
    else
      let g2 := if g.httpTimeout ≤ 0 then { g with httpTimeout := 10 } else g
      .ok (if g2.revalidateAfter = 0 then { g2 with revalidateAfter := 3600 } else g2)

/-- The `oidc_auth` section of `validate`. -/
def checkOIDCAuth (env : Env) (oidc : OIDCAuthConfig) :
    Except ConfigErr OIDCAuthConfig :=
  match resolveSecret env oidc.clientSecretFile oidc.clientSecret
      ConfigErr.oidcSecretFile with
  | .error e => .error e
  | .ok secret =>
    let o := { oidc with clientSecret := secret }
    if o.clientId = "" ∨ o.clientSecret = "" ∨ o.tokenDB = "" ∨ o.issuer = "" ∨
        o.redirectURL = "" then
      .error .oidcRequired
    else
      let o2 := if o.httpTimeout ≤ 0 then { o with httpTimeout := 10 } else o
      let o3 := if o2.userClaim = "" then { o2 with userClaim := "email" } else o2
      .ok (if o3.scopes = none then { o3 with scopes := some ["openid", "email"] } else o3)

/-- The `gitlab_auth` section of `validate` (identical in shape to the
GitHub section). -/
def checkGitlabAuth (env : Env) (glab : GitlabAuthConfig) :
    Except ConfigErr GitlabAuthConfig :=
  match resolveSecret env glab.clientSecretFile glab.clientSecret
      ConfigErr.gitlabSecretFile with
  | .error e => .error e
  | .ok secret =>
    let g := { glab with clientSecret := secret }
    if g.clientId = "" ∨ g.clientSecret = "" ∨
        (g.tokenDB = "" ∧ g.gcsTokenDB = none ∧ g.redisTokenDB = none) then
      .error .gitlabRequired
    else if g.clientId = "" ∨ g.clientSecret = "" ∨ gcsIncomplete g.gcsTokenDB then
      .error .gitlabGCSRequired
    else if g.clientId = "" ∨ g.clientSecret = "" ∨ redisIncomplete g.redisTokenDB then
      .error .gitlabRedisRequired
    else
      let g2 := if g.httpTimeout ≤ 0 then { g with httpTimeout := 10 } else g
      .ok (if g2.revalidateAfter = 0 then { g2 with revalidateAfter := 3600 } else g2)

def checkGoogleSection (env : Env) (c : Config) : Except ConfigErr Config :=
  match c.googleAuth with
  | none => .ok c
  | some gac =>
    match checkGoogleAuth env gac with
    | .error e => .error e
    | .ok g => .ok { c with googleAuth := some g }

def checkGitHubSection (env : Env) (c : Config) : Except ConfigErr Config :=
  match c.gitHubAuth with
  | none => .ok c
  | some ghac =>
    match checkGitHubAuth env ghac with
    | .error e => .error e
    | .ok g => .ok { c with gitHubAuth := some g }

def checkOIDCSection (env : Env) (c : Config) : Except ConfigErr Config :=
  match c.oidcAuth with
  | none => .ok c
  | some oidc =>
    match checkOIDCAuth env oidc with
    | .error e => .error e
    | .ok o => .ok { c with oidcAuth := some o }

def checkGitlabSection (env : Env) (c : Config) : Except ConfigErr Config :=
  match c.gitlabAuth with
  | none => .ok c
  | some glab =>
    match checkGitlabAuth env glab with
    | .error e => .error e
    | .ok g => .ok { c with gitlabAuth := some g }

/-- Lines 178–284 of the validator: the per-backend sections, in source
order (mongo, xorm, google, github, oidc, gitlab, ext_auth). -/
def checkAuthBackends (env : Env) (c : Config) : Except ConfigErr Config :=
  match checkOptional c.mongoAuth.isSome env.mongoAuthValidate ConfigErr.mongoAuth with
  | .error e => .error e
  | .ok _ =>
    match checkOptional c.xormAuthn.isSome env.xormAuthnValidate ConfigErr.xormAuthn with
    | .error e => .error e
    | .ok _ =>
      match checkGoogleSection env c with
      | .error e => .error e
      | .ok c3 =>
        match checkGitHubSection env c3 with
        | .error e => .error e
        | .ok c4 =>
          match checkOIDCSection env c4 with
          | .error e => .error e
          | .ok c5 =>
            match checkGitlabSection env c5 with
            | .error e => .error e
            | .ok c6 =>
              match checkOptional c6.extAuth.isSome env.extAuthValidate ConfigErr.extAuth with
              | .error e => .error e
              | .ok _ => .ok c6

/-- Lines 285–318 of the validator: the `ACL is empty` check
(`acl`, `acl_xorm`, `acl_mongo`, `ext_authz`, `plugin_authz` — note that
`casbin_authz` is NOT consulted), followed by the per-authorizer
validations and the plugin ones. -/
def checkACLs (env : Env) (c : Config) : Except ConfigErr Unit :=
  if c.acl = none ∧ c.aclXorm = none ∧ c.aclMongo = none ∧ c.extAuthz = none ∧
      c.pluginAuthz = none then
    .error .aclEmpty
  else
    match checkOptional c.acl.isSome env.validateACL ConfigErr.invalidACL with
    | .error e => .error e
    | .ok _ =>
      match checkOptional c.aclMongo.isSome env.aclMongoValidate ConfigErr.aclMongo with
      | .error e => .error e
      | .ok _ =>
        match checkOptional c.aclXorm.isSome env.aclXormValidate ConfigErr.aclXorm with
        | .error e => .error e
        | .ok _ =>
          match checkOptional c.extAuthz.isSome env.extAuthzValidate ConfigErr.extAuthz with
          | .error e => .error e
          | .ok _ =>
            match checkOptional c.pluginAuthn.isSome env.pluginAuthnValidate ConfigErr.pluginAuthn with
            | .error e => .error e
            | .ok _ =>
              checkOptional c.pluginAuthz.isSome env.pluginAuthzValidate ConfigErr.pluginAuthz

/-- `server.validate`: the three stages in source order.  The possibly
rewritten config (net default, secrets resolved, timeout defaults) is
returned, mirroring the in-place mutation in Go. -/
def validate (env : Env) (c : Config) : Except ConfigErr Config :=
  match checkBasics c with
  | .error e => .error e
  | .ok c2 =>
    match checkAuthBackends env c2 with
    | .error e => .error e
    | .ok c3 =>
      match checkACLs env c3 with
      | .error e => .error e
      | .ok _ => .ok c3

/-- A libtrust keypair, opaque to the model. -/
structure Keypair where
  pub : String
  priv : String
deriving DecidableEq, Repr

/-- Result of a successful `LoadConfig`: the validated config plus the
loaded key material (`tokenKeys` is always set on success — Go's
`tokenConfigured` must end up true). -/
structure LoadedConfig where
  config : Config
  serverKeys : Option Keypair
  tokenKeys : Keypair
deriving DecidableEq, Repr

/-- Lines 403–414 of `LoadConfig`: the server keypair phase.  `load` is the
oracle for `loadCertAndKey`.  `some kp` means `serverConfigured = true`. -/
def loadServerKeys (load : String → String → Except String Keypair)
    (c : Config) : Except ConfigErr (Option Keypair) :=
  if c.server.certFile ≠ "" ∨ c.server.keyFile ≠ "" then
    if c.server.certFile = "" ∨ c.server.keyFile = "" then
      .error .serverKeypairIncomplete
    else
      match load c.server.certFile c.server.keyFile with
      | .error e => .error (.serverKeypairLoad e)
      | .ok kp => .ok (some kp)
  else .ok none

/-- Lines 415–426 of `LoadConfig`: the token keypair phase. -/
def loadTokenKeys (load : String → String → Except String Keypair)
    (c : Config) : Except ConfigErr (Option Keypair) :=
  if c.token.certFile ≠ "" ∨ c.token.keyFile ≠ "" then
    if c.token.certFile = "" ∨ c.token.keyFile = "" then
      .error .tokenKeypairIncomplete
    else
      match load c.token.certFile c.token.keyFile with
      | .error e => .error (.tokenKeypairLoad e)
      | .ok kp => .ok (some kp)
  else .ok none

/-- Lines 403–449 of `LoadConfig`: both keypair phases, the reuse of the
server keypair when no token keypair is configured, the
none-provided failure, and the Let's Encrypt cache-dir checks
(`statIsDir` is the oracle for `os.Stat` + `IsDir`). -/
def loadKeypairs (load : String → String → Except String Keypair)
    (statIsDir : String → Bool) (c : Config) : Except ConfigErr LoadedConfig :=
  match loadServerKeys load c with
  | .error e => .error e
  | .ok serverKeys =>
    match loadTokenKeys load c with
    | .error e => .error e
    | .ok tokenKeysOpt =>
      match (match tokenKeysOpt with
             | some kp => some kp
             | none => serverKeys) with
      | none => .error .tokenKeypairNone
      | some tk =>
        if serverKeys = none ∧ c.server.letsEncrypt.email ≠ "" then
          if c.server.letsEncrypt.cacheDir = "" then
            .error .letsEncryptCacheDirRequired
          else if ¬ statIsDir c.server.letsEncrypt.cacheDir then
            .error (.letsEncryptCacheDirInvalid c.server.letsEncrypt.cacheDir)
          else .ok ⟨c, serverKeys, tk⟩
        else .ok ⟨c, serverKeys, tk⟩

/-- `server.LoadConfig` from the `validate` call on (the file open,
viper parse and env-var overlay that produce the parsed `Config` are
outside the model). -/
def LoadConfig (env : Env) (load : String → String → Except String Keypair)
    (statIsDir : String → Bool) (c : Config) : Except ConfigErr LoadedConfig :=
  match validate env c with
  | .error e => .error e
  | .ok c2 => loadKeypairs load statIsDir c2

/-- A concrete `Env` whose oracles all succeed. -/
def envTrivial : Env :=
  ⟨fun _ => .ok "", none, none, none, none, none, none, none, none, none⟩

def serverBase : ServerConfig :=
  ⟨"addr", "tcp", "", "", 0, "", "", false, "", none, none, ⟨"", "", ""⟩⟩

def tokenBase : TokenConfig := ⟨"issuer", "", "", 900⟩

/-- A minimal config passing every check: static users plus a static ACL. -/
def cfgBase : Config :=
  ⟨serverBase, tokenBase, some [], none, none, none, none, none, none, none,
    none, none, some (), none, none, none, none, none⟩

/-- The config whose only authorizer is `casbin_authz`. -/
def cfgCasbinOnly : Config := { cfgBase with acl := none, casbinAuthz := some () }

def ghacRedis : GitHubAuthConfig :=
  ⟨"", "id", "sec", "", "td", none, some ⟨none, none⟩, 0, 0, "", "", ""⟩

def glabRedis : GitlabAuthConfig :=
  ⟨"id", "sec", "", "td", none, some ⟨none, none⟩, 0, 0⟩

def cfgGithubRedis : Config := { cfgBase with gitHubAuth := some ghacRedis }

def cfgGitlabRedis : Config := { cfgBase with gitlabAuth := some glabRedis }

def cfgServerKeys : Config :=
  { cfgBase with server := { serverBase with certFile := "c.pem", keyFile := "k.pem" } }

def cfgCertOnly : Config :=
  { cfgBase with server := { serverBase with certFile := "c.pem" } }

/-- C3: static authentication: an absent user yields `(false, nil, NoMatch)`;
a present user with a non-nil password hash yields `(false, nil, nil)` when
the bcrypt comparison fails and `(true, labels, nil)` when it succeeds. -/
theorem static_auth_cases (bcryptMatch : String → String → Bool)
    (sua : staticUsersAuth) (user : String) (password : PasswordString) :
    (sua.users.lookup user = none →
      sua.Authenticate bcryptMatch user password = (false, none, some .noMatch)) ∧
    (∀ reqs hash, sua.users.lookup user = some reqs →
      reqs.password = some hash → bcryptMatch hash password = false →
      sua.Authenticate bcryptMatch user password = (false, none, none)) ∧
    (∀ reqs hash, sua.users.lookup user = some reqs →
      reqs.password = some hash → bcryptMatch hash password = true →
      sua.Authenticate bcryptMatch user password = (true, some reqs.labels, none)) := by
  refine ⟨fun h => ?_, fun reqs hash h hp hb => ?_, fun reqs hash h hp hb => ?_⟩
  · simp [staticUsersAuth.Authenticate, h]
  · simp [staticUsersAuth.Authenticate, h, hp, hb]
  · simp [staticUsersAuth.Authenticate, h, hp, hb]

/-- Witness for C3 on a concrete user map and password. -/
theorem static_auth_cases_witness :
    let sua : staticUsersAuth := ⟨[("alice", ⟨some "H", [("g", ["x"])]⟩)]⟩
    let bc : String → String → Bool := fun h p => h = "H" ∧ p = "pw"
    sua.Authenticate bc "bob" "pw" = (false, none, some .noMatch) ∧
    sua.Authenticate bc "alice" "bad" = (false, none, none) ∧
    sua.Authenticate bc "alice" "pw" = (true, some [("g", ["x"])], none) := by
  refine ⟨?_, ?_, ?_⟩
  · exact (static_auth_cases _ _ "bob" "pw").1 rfl
  · exact (static_auth_cases _ _ "alice" "bad").2.1
      ⟨some "H", [("g", ["x"])]⟩ "H" rfl rfl (by decide)
  · exact (static_auth_cases _ _ "alice" "pw").2.2
      ⟨some "H", [("g", ["x"])]⟩ "H" rfl rfl (by decide)

/-- C9: a static user entry whose password hash is nil authenticates
successfully with its labels, whatever password is supplied. -/
theorem static_auth_nil_password (bcryptMatch : String → String → Bool)
    (sua : staticUsersAuth) (user : String) (password : PasswordString)
    (reqs : Requirements) (h : sua.users.lookup user = some reqs)
    (hp : reqs.password = none) :
    sua.Authenticate bcryptMatch user password = (true, some reqs.labels, none) := by
  simp [staticUsersAuth.Authenticate, h, hp]

/-- Witness for C9: a concrete entry without a hash accepts any password. -/
theorem static_auth_nil_password_witness :
    staticUsersAuth.Authenticate (fun _ _ => false)
      ⟨[("carol", ⟨none, [("t", ["u"])]⟩)]⟩ "carol" "anything" =
      (true, some [("t", ["u"])], none) :=
  static_auth_nil_password _ _ "carol" "anything" ⟨none, [("t", ["u"])]⟩ rfl rfl

/-- C6: `Requirements.String` output is invariant under changing a non-nil
password (for any marshaller, since the marshalled copy carries the fixed
mask `"***"` in place of the password), and the receiver's value is left
unchanged by the call. -/
theorem requirements_string_masks (marshal : Requirements → String)
    (r₁ r₂ : Requirements) (p₁ p₂ : PasswordString)
    (h₁ : r₁.password = some p₁) (h₂ : r₂.password = some p₂)
    (hl : r₁.labels = r₂.labels) :
    (r₁.stringRepr marshal).1 = (r₂.stringRepr marshal).1 ∧
    (r₁.stringRepr marshal).2 = r₁ := by
  obtain ⟨pw₁, l₁⟩ := r₁
  obtain ⟨pw₂, l₂⟩ := r₂
  simp only [Requirements.mk.injEq] at *
  subst h₁ h₂ hl
  simp [Requirements.stringRepr]

/-- Witness for C6: two concrete values differing only in the password
render identically, and the receiver keeps its password. -/
theorem requirements_string_masks_witness :
    let m : Requirements → String := fun r => toString r.labels.length
    (Requirements.stringRepr m ⟨some "secretA", [("k", ["v"])]⟩).1 =
      (Requirements.stringRepr m ⟨some "secretB", [("k", ["v"])]⟩).1 ∧
    (Requirements.stringRepr m ⟨some "secretA", [("k", ["v"])]⟩).2 =
      ⟨some "secretA", [("k", ["v"])]⟩ :=
  requirements_string_masks _ _ _ "secretA" "secretB" rfl rfl rfl

/-- C2: when `ValidateToken` reports `ExpiredToken` and the provider confirms
the stored access token for the same username, `Authenticate` succeeds with
the stored labels and the stored value is written back with `ValidUntil`
advanced to `now + RevalidateAfter`; when the provider reports a different
username, `Authenticate` fails with a non-nil error. -/
theorem github_auth_expired_revalidation
    (provider : String → Except String String) (now revalidateAfter : Int)
    (db : DBMap) (user : String) (v : TokenDBValue) (hdb : db user = some v) :
    (provider v.accessToken = .ok user →
      GitHubAuth.Authenticate provider now revalidateAfter db
          (some .expiredToken) user =
        ((true, some v.labels, none),
          storeToken db user { v with validUntil := now + revalidateAfter } false) ∧
      (GitHubAuth.Authenticate provider now revalidateAfter db
          (some .expiredToken) user).2 user =
        some { v with validUntil := now + revalidateAfter }) ∧
    (∀ otherUser, provider v.accessToken = .ok otherUser → otherUser ≠ user →
      GitHubAuth.Authenticate provider now revalidateAfter db
          (some .expiredToken) user =
        ((false, none, some (.msg "found token for wrong user")), db)) := by
  constructor
  · intro hok
    have hmain :
        GitHubAuth.Authenticate provider now revalidateAfter db
            (some .expiredToken) user =
          ((true, some v.labels, none),
            storeToken db user { v with validUntil := now + revalidateAfter } false) := by
      simp [GitHubAuth.Authenticate, validateServerToken, hdb, hok, storeToken]
    refine ⟨hmain, ?_⟩
    rw [hmain]
    simp [storeToken]
  · intro otherUser hok hne
    simp [GitHubAuth.Authenticate, validateServerToken, hdb, hok, hne]

/-- Witness for C2 on a concrete store and provider. -/
theorem github_auth_expired_revalidation_witness :
    let v : TokenDBValue := ⟨"Bearer", "tok", none, 5, [("teams", ["dev"])]⟩
    let db : DBMap := fun u => if u = "ann" then some v else none
    let good : String → Except String String :=
      fun t => if t = "tok" then .ok "ann" else .error "bad"
    let bad : String → Except String String := fun _ => .ok "mallory"
    ((GitHubAuth.Authenticate good 100 60 db (some .expiredToken) "ann").1 =
        (true, some [("teams", ["dev"])], none) ∧
      (GitHubAuth.Authenticate good 100 60 db (some .expiredToken) "ann").2 "ann" =
        some ⟨"Bearer", "tok", none, 160, [("teams", ["dev"])]⟩) ∧
    GitHubAuth.Authenticate bad 100 60 db (some .expiredToken) "ann" =
      ((false, none, some (.msg "found token for wrong user")), db) := by
  refine ⟨⟨?_, ?_⟩, ?_⟩
  · have h := (github_auth_expired_revalidation
      (fun t => if t = "tok" then .ok "ann" else .error "bad") 100 60
      (fun u => if u = "ann" then some ⟨"Bearer", "tok", none, 5, [("teams", ["dev"])]⟩ else none)
      "ann" ⟨"Bearer", "tok", none, 5, [("teams", ["dev"])]⟩ rfl).1 rfl
    rw [h.1]
  · exact (github_auth_expired_revalidation
      (fun t => if t = "tok" then .ok "ann" else .error "bad") 100 60
      (fun u => if u = "ann" then some ⟨"Bearer", "tok", none, 5, [("teams", ["dev"])]⟩ else none)
      "ann" ⟨"Bearer", "tok", none, 5, [("teams", ["dev"])]⟩ rfl).1 rfl |>.2
  · exact (github_auth_expired_revalidation
      (fun _ => .ok "mallory") 100 60
      (fun u => if u = "ann" then some ⟨"Bearer", "tok", none, 5, [("teams", ["dev"])]⟩ else none)
      "ann" ⟨"Bearer", "tok", none, 5, [("teams", ["dev"])]⟩ rfl).2 "mallory" rfl (by decide)

theorem splitChar_ne_nil (c : Char) (l : List Char) : splitChar c l ≠ [] := by
  cases l with
  | nil => simp [splitChar]
  | cons x xs => simp only [splitChar]; split <;> simp

theorem splitChar_of_not_mem {c : Char} {l : List Char} (h : c ∉ l) :
    splitChar c l = [l] := by
  induction l with
  | nil => rfl
  | cons x xs ih =>
    simp only [List.mem_cons, not_or] at h
    simp only [splitChar, ih h.2]
    rw [if_neg (fun hx => h.1 hx.symm)]
    simp

theorem splitChar_append_sep {c : Char} {a : List Char} (b : List Char)
    (h : c ∉ a) : splitChar c (a ++ c :: b) = a :: splitChar c b := by
  induction a with
  | nil => simp [splitChar]
  | cons x xs ih =>
    simp only [List.mem_cons, not_or] at h
    simp only [List.cons_append, splitChar, List.append_eq]
    rw [ih h.2, if_neg (fun hx => h.1 hx.symm)]
    simp

theorem splitChar_length_ge_two {c : Char} {l : List Char} (h : c ∈ l) :
    2 ≤ (splitChar c l).length := by
  obtain ⟨a, b, rfl⟩ := List.append_of_mem h
  induction a with
  | nil =>
    have := splitChar_ne_nil c b
    simp only [List.nil_append, splitChar, if_pos rfl, List.length_cons]
    cases hb : splitChar c b with
    | nil => exact absurd hb this
    | cons y ys => simp
  | cons x xs ih =>
    have ih2 := ih (by simp)
    simp only [List.cons_append, splitChar, List.append_eq]
    split
    · simp only [List.length_cons]
      omega
    · simp only [List.length_cons, List.length_tail]
      omega

theorem processLinkItem_isSome (lH : linkHeader) (item : List Char)
    (h : ';' ∈ item) : (processLinkItem lH item).isSome := by
  have h2 := splitChar_length_ge_two h
  match hs : splitChar ';' item with
  | [] => rw [hs] at h2; simp at h2
  | [a] => rw [hs] at h2; simp at h2
  | a :: b :: rest =>
    simp only [processLinkItem, hs]
    repeat' split
    all_goals simp

theorem foldlM_processLinkItem_isSome (items : List (List Char))
    (lH : linkHeader) (h : ∀ item ∈ items, ';' ∈ item) :
    (items.foldlM processLinkItem lH).isSome := by
  induction items generalizing lH with
  | nil => simp
  | cons a rest ih =>
    have ha := processLinkItem_isSome lH a (h a (by simp))
    obtain ⟨lH2, hl⟩ := Option.isSome_iff_exists.mp ha
    simp only [List.foldlM_cons, hl]
    simpa using ih lH2 (fun i hi => h i (by simp [hi]))

theorem parseLinkLines_isSome (lines : List (List Char)) (lH : linkHeader)
    (h : ∀ line ∈ lines, ∀ item ∈ splitChar ',' line, ';' ∈ item) :
    (lines.foldlM
      (fun lH linkLine => (splitChar ',' linkLine).foldlM processLinkItem lH)
      lH).isSome := by
  induction lines generalizing lH with
  | nil => simp
  | cons a rest ih =>
    have ha := foldlM_processLinkItem_isSome (splitChar ',' a) lH (h a (by simp))
    obtain ⟨lH2, hl⟩ := Option.isSome_iff_exists.mp ha
    simp only [List.foldlM_cons, hl]
    simpa using ih lH2 (fun l hlm => h l (by simp [hlm]))

/-- C10: `parseLinkHeader` accesses `linkData[1]` unconditionally: whenever
every comma-separated item of every line contains a `";"`, the access is in
bounds and a result is returned; the access is unguarded, so an item without
a `";"` (here: the empty line) makes it panic. -/
theorem parse_link_header_totality :
    (∀ lines : List (List Char),
      (∀ line ∈ lines, ∀ item ∈ splitChar ',' line, ';' ∈ item) →
      (parseLinkHeader lines).isSome) ∧
    parseLinkHeader [[]] = none := by
  constructor
  · intro lines h
    exact parseLinkLines_isSome lines linkHeader.empty h
  · rfl

/-- Witness for C10: a concrete header line whose single item contains a
`";"` parses to a result. -/
theorem parse_link_header_totality_witness :
    (parseLinkHeader ["<u>; rel=\"next\"".data]).isSome :=
  parse_link_header_totality.1 _ (by decide)

theorem splitChar_joinComma {c : Char} {L : List (List Char)}
    (h : ∀ s ∈ L, c ∉ s) (hne : L ≠ []) :
    splitChar c (joinComma c L) = L := by
  induction L with
  | nil => exact absurd rfl hne
  | cons a rest ih =>
    cases rest with
    | nil => exact splitChar_of_not_mem (h a (by simp))
    | cons b rest2 =>
      rw [joinComma, splitChar_append_sep _ (h a (by simp))]
      rw [ih (fun s hs => h s (by simp [hs])) (by simp)]

theorem dropWhile_ws_append (ws rest : List Char)
    (hws : ∀ c ∈ ws, c.isWhitespace)
    (hr : List.dropWhile Char.isWhitespace rest = rest) :
    List.dropWhile Char.isWhitespace (ws ++ rest) = rest := by
  induction ws with
  | nil => rw [List.nil_append]; exact hr
  | cons w ws ih =>
    have hw := hws w (by simp)
    simp only [List.cons_append, List.dropWhile_cons, hw]
    simpa using ih (fun c hc => hws c (by simp [hc]))

theorem trimSpace_ws_angle (ws u : List Char)
    (hws : ∀ c ∈ ws, c.isWhitespace) :
    trimSpace (ws ++ '<' :: (u ++ ['>'])) = '<' :: (u ++ ['>']) := by
  have hlt : Char.isWhitespace '<' = false := by decide
  have hgt : Char.isWhitespace '>' = false := by decide
  have h1 : List.dropWhile Char.isWhitespace ('<' :: (u ++ ['>'])) =
      '<' :: (u ++ ['>']) := by
    rw [List.dropWhile_cons]
    simp [hlt]
  unfold trimSpace
  rw [dropWhile_ws_append ws ('<' :: (u ++ ['>'])) hws h1]
  have hrev : ('<' :: (u ++ ['>'])).reverse = '>' :: (u.reverse ++ ['<']) := by
    simp
  rw [hrev, List.dropWhile_cons]
  simp [hgt]

theorem filter_ne_of_not_mem {c : Char} {u : List Char} (h : c ∉ u) :
    u.filter (fun x => x ≠ c) = u :=
  List.filter_eq_self.mpr (fun a ha => decide_eq_true (fun e => h (e ▸ ha)))

theorem removeAngle (u : List Char) (h2 : '<' ∉ u) (h3 : '>' ∉ u) :
    removeSubstringsFromString ('<' :: (u ++ ['>'])) ['<', '>'] = u := by
  simp only [removeSubstringsFromString, List.foldl_cons, List.foldl_nil]
  have e1 : ('<' :: (u ++ ['>'])).filter (fun x => x ≠ '<') = u ++ ['>'] := by
    rw [List.filter_cons]
    simp only [List.filter_append, filter_ne_of_not_mem h2]
    norm_num
    decide
  rw [e1, List.filter_append, filter_ne_of_not_mem h3]
  norm_num

theorem processLinkItem_mkLinkItem (lH : linkHeader) (ws u : List Char)
    (r : LinkRel) (hws : ∀ c ∈ ws, c.isWhitespace)
    (h1 : ';' ∉ u) (h2 : '<' ∉ u) (h3 : '>' ∉ u) :
    processLinkItem lH (mkLinkItem ws u r) = some (lH.set r u) := by
  have hsemiws : (';' : Char) ∉ ws := by
    intro hm
    exact absurd (hws _ hm) (by decide)
  have hnot : (';' : Char) ∉ ws ++ '<' :: (u ++ ['>']) := by
    intro hm
    rcases List.mem_append.mp hm with hm | hm
    · exact hsemiws hm
    · rcases List.mem_cons.mp hm with hm | hm
      · exact absurd hm (by decide)
      · rcases List.mem_append.mp hm with hm | hm
        · exact h1 hm
        · exact absurd hm (by decide)
  have hrel : (';' : Char) ∉ relPart r := by cases r <;> decide
  have hsplit : splitChar ';' (mkLinkItem ws u r) =
      (ws ++ '<' :: (u ++ ['>'])) :: [relPart r] := by
    rw [mkLinkItem, splitChar_append_sep _ hnot, splitChar_of_not_mem hrel]
  have htrim := trimSpace_ws_angle ws u hws
  have hrem := removeAngle u h2 h3
  cases r
  case first =>
    simp only [processLinkItem, hsplit, htrim, hrem]
    rw [if_pos (by decide)]
    rfl
  case last =>
    simp only [processLinkItem, hsplit, htrim, hrem]
    rw [if_neg (by decide), if_pos (by decide)]
    rfl
  case next =>
    simp only [processLinkItem, hsplit, htrim, hrem]
    rw [if_neg (by decide), if_neg (by decide), if_pos (by decide)]
    rfl
  case prev =>
    simp only [processLinkItem, hsplit, htrim, hrem]
    rw [if_neg (by decide), if_neg (by decide), if_neg (by decide),
      if_pos (by decide)]
    rfl

theorem linkHeader_get_set_same (lH : linkHeader) (r : LinkRel)
    (u : List Char) : (lH.set r u).get r = u := by
  cases r <;> rfl

theorem linkHeader_get_set_other (lH : linkHeader) (r r' : LinkRel)
    (u : List Char) (h : r' ≠ r) : (lH.set r u).get r' = lH.get r' := by
  cases r <;> cases r' <;> simp_all [linkHeader.set, linkHeader.get]

theorem get_applyItems_not_mem (items : List (List Char × LinkRel))
    (acc : linkHeader) (r : LinkRel) (h : r ∉ items.map Prod.snd) :
    (applyItems acc items).get r = acc.get r := by
  induction items generalizing acc with
  | nil => rfl
  | cons p rest ih =>
    simp only [List.map_cons, List.mem_cons, not_or] at h
    rw [applyItems, ih _ h.2, linkHeader_get_set_other _ _ _ _ h.1]

theorem get_applyItems (items : List (List Char × LinkRel)) (acc : linkHeader)
    (hn : (items.map Prod.snd).Nodup) :
    ∀ p ∈ items, (applyItems acc items).get p.2 = p.1 := by
  induction items generalizing acc with
  | nil => intro p hp; cases hp
  | cons q rest ih =>
    simp only [List.map_cons, List.nodup_cons] at hn
    intro p hp
    rcases List.mem_cons.mp hp with rfl | hp2
    · rw [applyItems, get_applyItems_not_mem rest _ p.2 hn.1]
      exact linkHeader_get_set_same acc p.2 p.1
    · rw [applyItems]
      exact ih _ hn.2 p hp2

theorem foldlM_mkLinkItems (items : List (List Char × LinkRel))
    (ws : List Char) (acc : linkHeader)
    (hws : ∀ c ∈ ws, c.isWhitespace)
    (h : ∀ p ∈ items, ';' ∉ p.1 ∧ '<' ∉ p.1 ∧ '>' ∉ p.1) :
    (items.map (fun p => mkLinkItem ws p.1 p.2)).foldlM processLinkItem acc =
      some (applyItems acc items) := by
  induction items generalizing acc with
  | nil => simp [applyItems]
  | cons p rest ih =>
    obtain ⟨hp1, hp2, hp3⟩ := h p (by simp)
    simp only [List.map_cons, List.foldlM_cons,
      processLinkItem_mkLinkItem acc ws p.1 p.2 hws hp1 hp2 hp3]
    simpa [applyItems] using ih (acc.set p.2 p.1) (fun q hq => h q (by simp [hq]))

theorem comma_not_mem_mkLinkItem (ws u : List Char) (r : LinkRel)
    (hws : ∀ c ∈ ws, c.isWhitespace) (h : ',' ∉ u) :
    ',' ∉ mkLinkItem ws u r := by
  intro hm
  rw [mkLinkItem] at hm
  rcases List.mem_append.mp hm with hm | hm
  · rcases List.mem_append.mp hm with hm | hm
    · exact absurd (hws _ hm) (by decide)
    · rcases List.mem_cons.mp hm with hm | hm
      · exact absurd hm (by decide)
      · rcases List.mem_append.mp hm with hm | hm
        · exact h hm
        · exact absurd hm (by decide)
  · rcases List.mem_cons.mp hm with hm | hm
    · exact absurd hm (by decide)
    · revert hm
      cases r <;> decide

/-- C8: a Link header line of comma-separated well-formed items
`<URL>; rel="KIND"` (each URL free of `,`/`;`/`<`/`>`, optional leading
whitespace before each item, no repeated relation) parses so that the field
of each relation holds the bare URL of its item — the `< >` are stripped and
the surrounding whitespace trimmed; in particular a `rel="next"` item sets
the `Next` field to the bare URL. -/
theorem parse_link_header_fields (items : List (List Char × LinkRel))
    (ws : List Char) (hws : ∀ c ∈ ws, c.isWhitespace) (hne : items ≠ [])
    (hch : ∀ p ∈ items, ';' ∉ p.1 ∧ ',' ∉ p.1 ∧ '<' ∉ p.1 ∧ '>' ∉ p.1)
    (hn : (items.map Prod.snd).Nodup) :
    ∃ lH, parseLinkHeader
        [joinComma ',' (items.map (fun p => mkLinkItem ws p.1 p.2))] =
        some lH ∧
      ∀ p ∈ items, lH.get p.2 = p.1 := by
  refine ⟨applyItems linkHeader.empty items, ?_, get_applyItems items _ hn⟩
  unfold parseLinkHeader
  rw [List.foldlM_cons]
  rw [splitChar_joinComma
    (fun s hs => by
      obtain ⟨p, hp, rfl⟩ := List.mem_map.mp hs
      exact comma_not_mem_mkLinkItem ws p.1 p.2 hws (hch p hp).2.1)
    (by simpa using hne)]
  rw [foldlM_mkLinkItems items ws linkHeader.empty hws
    (fun p hp => ⟨(hch p hp).1, (hch p hp).2.2.1, (hch p hp).2.2.2⟩)]
  rfl

/-- Witness for C8: one concrete line with `next` and `prev` items. -/
theorem parse_link_header_fields_witness :
    ∃ lH, parseLinkHeader
        [joinComma ',' ([("u2".data, LinkRel.next), ("u1".data, LinkRel.prev)].map
          (fun p => mkLinkItem " ".data p.1 p.2))] = some lH ∧
      ∀ p ∈ [("u2".data, LinkRel.next), ("u1".data, LinkRel.prev)],
        lH.get p.2 = p.1 :=
  parse_link_header_fields _ " ".data (by decide) (by decide) (by decide)
    (by decide)

theorem mapInsert_nodup {m : List String} (h : m.Nodup) (k : String) :
    (mapInsert m k).Nodup := by
  unfold mapInsert
  split
  · exact h
  · simpa [List.nodup_append] using ⟨h, by assumption⟩

theorem mem_mapInsert (m : List String) (k x : String) :
    x ∈ mapInsert m k ↔ x ∈ m ∨ x = k := by
  unfold mapInsert
  split
  · constructor
    · exact fun h => Or.inl h
    · rintro (h | rfl)
      · exact h
      · assumption
  · simp

theorem collectOrgTeams_spec (org : String) (teams : List GitHubTeam) :
    ∀ m : List String, m.Nodup →
      (∀ t ∈ teams, t.organization ≠ none) →
      ∃ l, collectOrgTeams org teams m = some l ∧ l.Nodup ∧
        ∀ x, x ∈ l ↔ x ∈ m ∨ ∃ t, t ∈ teams ∧ teamYields org t x := by
  induction teams with
  | nil =>
    intro m hm _
    exact ⟨m, rfl, hm, by simp⟩
  | cons t rest ih =>
    intro m hm hwf
    obtain ⟨o, ho⟩ := Option.ne_none_iff_exists.mp (hwf t (by simp))
    have hwfr : ∀ u ∈ rest, u.organization ≠ none :=
      fun u hu => hwf u (by simp [hu])
    by_cases hl : o.login = org
    · -- matching team: insert slug (and parent slug) then recurse
      have hm1 : (mapInsert m t.slug).Nodup := mapInsert_nodup hm _
      cases hp : t.parent with
      | none =>
        obtain ⟨l, hrec, hln, hmem⟩ := ih (mapInsert m t.slug) hm1 hwfr
        refine ⟨l, ?_, hln, ?_⟩
        · rw [collectOrgTeams, ← ho]
          simp only [hl, if_pos rfl, hp]
          exact hrec
        · intro x
          rw [hmem x, mem_mapInsert]
          constructor
          · rintro ((hx | rfl) | ⟨u, hu, hy⟩)
            · exact Or.inl hx
            · exact Or.inr ⟨t, by simp, ⟨o, ho.symm, hl⟩, Or.inl rfl⟩
            · exact Or.inr ⟨u, by simp [hu], hy⟩
          · rintro (hx | ⟨u, hu, hy⟩)
            · exact Or.inl (Or.inl hx)
            · rcases List.mem_cons.mp hu with rfl | hu2
              · rcases hy.2 with rfl | ⟨p, hp2, _⟩
                · exact Or.inl (Or.inr rfl)
                · rw [hp] at hp2; cases hp2
              · exact Or.inr ⟨u, hu2, hy⟩
      | some p =>
        have hm2 : (mapInsert (mapInsert m t.slug) p.slug).Nodup :=
          mapInsert_nodup hm1 _
        obtain ⟨l, hrec, hln, hmem⟩ := ih _ hm2 hwfr
        refine ⟨l, ?_, hln, ?_⟩
        · rw [collectOrgTeams, ← ho]
          simp only [hl, if_pos rfl, hp]
          exact hrec
        · intro x
          rw [hmem x, mem_mapInsert, mem_mapInsert]
          constructor
          · rintro (((hx | rfl) | rfl) | ⟨u, hu, hy⟩)
            · exact Or.inl hx
            · exact Or.inr ⟨t, by simp, ⟨o, ho.symm, hl⟩, Or.inl rfl⟩
            · exact Or.inr ⟨t, by simp, ⟨o, ho.symm, hl⟩, Or.inr ⟨p, hp, rfl⟩⟩
            · exact Or.inr ⟨u, by simp [hu], hy⟩
          · rintro (hx | ⟨u, hu, hy⟩)
            · exact Or.inl (Or.inl (Or.inl hx))
            · rcases List.mem_cons.mp hu with rfl | hu2
              · rcases hy.2 with rfl | ⟨q, hq, hqs⟩
                · exact Or.inl (Or.inl (Or.inr rfl))
                · rw [hp] at hq
                  cases hq
                  exact Or.inl (Or.inr hqs.symm)
              · exact Or.inr ⟨u, hu2, hy⟩
    · -- team of another organization: contributes nothing
      obtain ⟨l, hrec, hln, hmem⟩ := ih m hm hwfr
      refine ⟨l, ?_, hln, ?_⟩
      · rw [collectOrgTeams, ← ho]
        simp only [hl, if_neg hl]
        exact hrec
      · intro x
        rw [hmem x]
        constructor
        · rintro (hx | ⟨u, hu, hy⟩)
          · exact Or.inl hx
          · exact Or.inr ⟨u, by simp [hu], hy⟩
        · rintro (hx | ⟨u, hu, hy⟩)
          · exact Or.inl hx
          · rcases List.mem_cons.mp hu with rfl | hu2
            · obtain ⟨o2, ho2, hlo2⟩ := hy.1
              rw [← ho] at ho2
              simp only [Option.some.injEq] at ho2
              subst ho2
              exact absurd hlo2 hl
            · exact Or.inr ⟨u, hu2, hy⟩

/-- C5: for a non-empty configured organization and provider teams whose
`Organization` pointers are non-nil, `fetchTeams` returns a duplicate-free
list containing exactly the slugs of the teams of that organization plus
the slugs of their parents (when present); teams of other organizations
contribute nothing; an empty configured organization yields nil. -/
theorem fetchTeams_spec (org : String) (teams : List GitHubTeam) :
    (org ≠ "" → (∀ t ∈ teams, t.organization ≠ none) →
      ∃ l, fetchTeams org teams = some l ∧ l.Nodup ∧
        ∀ x, x ∈ l ↔ ∃ t, t ∈ teams ∧ teamYields org t x) ∧
    (org = "" → fetchTeams org teams = some []) := by
  constructor
  · intro hne hwf
    obtain ⟨l, hrec, hln, hmem⟩ :=
      collectOrgTeams_spec org teams [] List.nodup_nil hwf
    refine ⟨l, ?_, hln, fun x => ?_⟩
    · rw [fetchTeams, if_neg hne]
      exact hrec
    · rw [hmem x]
      simp
  · intro h
    rw [fetchTeams, if_pos h]

/-- Witness for C5: two teams of the configured organization (one with a
parent), one foreign team; and the empty-organization case. -/
theorem fetchTeams_spec_witness :
    let t1 : GitHubTeam := ⟨1, "", "A", "a", some ⟨"org", 9⟩, some ⟨7, "P", "p"⟩⟩
    let t2 : GitHubTeam := ⟨2, "", "B", "b", some ⟨"org", 9⟩, none⟩
    let t3 : GitHubTeam := ⟨3, "", "C", "c", some ⟨"other", 5⟩, none⟩
    (∃ l, fetchTeams "org" [t1, t2, t3] = some l ∧ l.Nodup ∧
      ∀ x, x ∈ l ↔ ∃ t, t ∈ [t1, t2, t3] ∧ teamYields "org" t x) ∧
    fetchTeams "" [t1, t2, t3] = some [] := by
  refine ⟨?_, ?_⟩
  · exact (fetchTeams_spec "org" _).1 (by decide) (by decide)
  · exact (fetchTeams_spec "" _).2 rfl

theorem checkOptional_error_shape {p : Bool} {res : Option String}
    {wrap : String → ConfigErr} {e : ConfigErr}
    (h : checkOptional p res wrap = .error e) : ∃ s, e = wrap s := by
  unfold checkOptional at h
  split at h
  · split at h
    · injection h with h2
      exact ⟨_, h2.symm⟩
    · exact Except.noConfusion h
  · exact Except.noConfusion h

theorem resolveSecret_error_shape {env : Env} {file secret : String}
    {wrap : String → String → ConfigErr} {e : ConfigErr}
    (h : resolveSecret env file secret wrap = .error e) : ∃ a b, e = wrap a b := by
  unfold resolveSecret at h
  split at h
  · split at h
    · injection h with h2
      exact ⟨_, _, h2.symm⟩
    · exact Except.noConfusion h
  · exact Except.noConfusion h

theorem checkBasics_ne_aclEmpty (c : Config) :
    checkBasics c ≠ .error .aclEmpty := by
  intro h
  unfold checkBasics at h
  split at h
  · simp at h
  · split at h
    · simp at h
    · simp only [] at h
      split at h
      · simp at h
      · split at h
        · simp at h
        · split at h
          · simp at h
          · split at h
            · simp at h
            · split at h
              · simp at h
              · exact Except.noConfusion h

theorem checkGoogleAuth_ne_aclEmpty (env : Env) (g : GoogleAuthConfig) :
    checkGoogleAuth env g ≠ .error .aclEmpty := by
  intro h
  unfold checkGoogleAuth at h
  split at h
  · rename_i e heq
    simp only [Except.error.injEq] at h
    subst h
    obtain ⟨a, b, hab⟩ := resolveSecret_error_shape heq
    exact ConfigErr.noConfusion hab
  · simp only [] at h
    split at h
    · simp at h
    · exact Except.noConfusion h

theorem checkGitHubAuth_ne_aclEmpty (env : Env) (g : GitHubAuthConfig) :
    checkGitHubAuth env g ≠ .error .aclEmpty := by
  intro h
  unfold checkGitHubAuth at h
  split at h
  · rename_i e heq
    simp only [Except.error.injEq] at h
    subst h
    obtain ⟨a, b, hab⟩ := resolveSecret_error_shape heq
    exact ConfigErr.noConfusion hab
  · simp only [] at h
    split at h
    · simp at h
    · split at h
      · simp at h
      · split at h
        · simp at h
        · exact Except.noConfusion h

theorem checkOIDCAuth_ne_aclEmpty (env : Env) (g : OIDCAuthConfig) :
    checkOIDCAuth env g ≠ .error .aclEmpty := by
  intro h
  unfold checkOIDCAuth at h
  split at h
  · rename_i e heq
    simp only [Except.error.injEq] at h
    subst h
    obtain ⟨a, b, hab⟩ := resolveSecret_error_shape heq
    exact ConfigErr.noConfusion hab
  · simp only [] at h
    split at h
    · simp at h
    · exact Except.noConfusion h

theorem checkGitlabAuth_ne_aclEmpty (env : Env) (g : GitlabAuthConfig) :
    checkGitlabAuth env g ≠ .error .aclEmpty := by
  intro h
  unfold checkGitlabAuth at h
  split at h
  · rename_i e heq
    simp only [Except.error.injEq] at h
    subst h
    obtain ⟨a, b, hab⟩ := resolveSecret_error_shape heq
    exact ConfigErr.noConfusion hab
  · simp only [] at h
    split at h
    · simp at h
    · split at h
      · simp at h
      · split at h
        · simp at h
        · exact Except.noConfusion h

theorem checkGoogleSection_ne_aclEmpty (env : Env) (c : Config) :
    checkGoogleSection env c ≠ .error .aclEmpty := by
  intro h
  unfold checkGoogleSection at h
  split at h
  · exact Except.noConfusion h
  · split at h
    · rename_i heq
      simp only [Except.error.injEq] at h
      subst h
      exact checkGoogleAuth_ne_aclEmpty _ _ heq
    · exact Except.noConfusion h

theorem checkGitHubSection_ne_aclEmpty (env : Env) (c : Config) :
    checkGitHubSection env c ≠ .error .aclEmpty := by
  intro h
  unfold checkGitHubSection at h
  split at h
  · exact Except.noConfusion h
  · split at h
    · rename_i heq
      simp only [Except.error.injEq] at h
      subst h
      exact checkGitHubAuth_ne_aclEmpty _ _ heq
    · exact Except.noConfusion h

theorem checkOIDCSection_ne_aclEmpty (env : Env) (c : Config) :
    checkOIDCSection env c ≠ .error .aclEmpty := by
  intro h
  unfold checkOIDCSection at h
  split at h
  · exact Except.noConfusion h
  · split at h
    · rename_i heq
      simp only [Except.error.injEq] at h
      subst h
      exact checkOIDCAuth_ne_aclEmpty _ _ heq
    · exact Except.noConfusion h

theorem checkGitlabSection_ne_aclEmpty (env : Env) (c : Config) :
    checkGitlabSection env c ≠ .error .aclEmpty := by
  intro h
  unfold checkGitlabSection at h
  split at h
  · exact Except.noConfusion h
  · split at h
    · rename_i heq
      simp only [Except.error.injEq] at h
      subst h
      exact checkGitlabAuth_ne_aclEmpty _ _ heq
    · exact Except.noConfusion h

theorem checkAuthBackends_ne_aclEmpty (env : Env) (c : Config) :
    checkAuthBackends env c ≠ .error .aclEmpty := by
  intro h
  unfold checkAuthBackends at h
  split at h
  · rename_i e heq
    simp only [Except.error.injEq] at h
    subst h
    obtain ⟨s, hs⟩ := checkOptional_error_shape heq
    exact ConfigErr.noConfusion hs
  · split at h
    · rename_i e heq
      simp only [Except.error.injEq] at h
      subst h
      obtain ⟨s, hs⟩ := checkOptional_error_shape heq
      exact ConfigErr.noConfusion hs
    · split at h
      · rename_i e heq
        simp only [Except.error.injEq] at h
        subst h
        exact checkGoogleSection_ne_aclEmpty _ _ heq
      · split at h
        · rename_i e heq
          simp only [Except.error.injEq] at h
          subst h
          exact checkGitHubSection_ne_aclEmpty _ _ heq
        · split at h
          · rename_i e heq
            simp only [Except.error.injEq] at h
            subst h
            exact checkOIDCSection_ne_aclEmpty _ _ heq
          · split at h
            · rename_i e heq
              simp only [Except.error.injEq] at h
              subst h
              exact checkGitlabSection_ne_aclEmpty _ _ heq
            · split at h
              · rename_i e heq
                simp only [Except.error.injEq] at h
                subst h
                obtain ⟨s, hs⟩ := checkOptional_error_shape heq
                exact ConfigErr.noConfusion hs
              · exact Except.noConfusion h

theorem checkACLs_ne_aclEmpty (env : Env) (c : Config)
    (h : c.acl ≠ none ∨ c.aclMongo ≠ none ∨ c.aclXorm ≠ none ∨
      c.extAuthz ≠ none ∨ c.pluginAuthz ≠ none) :
    checkACLs env c ≠ .error .aclEmpty := by
  intro hres
  unfold checkACLs at hres
  split at hres
  · rename_i hcond
    rcases h with h | h | h | h | h <;> simp_all
  · split at hres
    · rename_i e heq
      simp only [Except.error.injEq] at hres
      subst hres
      obtain ⟨s, hs⟩ := checkOptional_error_shape heq
      exact ConfigErr.noConfusion hs
    · split at hres
      · rename_i e heq
        simp only [Except.error.injEq] at hres
        subst hres
        obtain ⟨s, hs⟩ := checkOptional_error_shape heq
        exact ConfigErr.noConfusion hs
      · split at hres
        · rename_i e heq
          simp only [Except.error.injEq] at hres
          subst hres
          obtain ⟨s, hs⟩ := checkOptional_error_shape heq
          exact ConfigErr.noConfusion hs
        · split at hres
          · rename_i e heq
            simp only [Except.error.injEq] at hres
            subst hres
            obtain ⟨s, hs⟩ := checkOptional_error_shape heq
            exact ConfigErr.noConfusion hs
          · split at hres
            · rename_i e heq
              simp only [Except.error.injEq] at hres
              subst hres
              obtain ⟨s, hs⟩ := checkOptional_error_shape heq
              exact ConfigErr.noConfusion hs
            · obtain ⟨s, hs⟩ := checkOptional_error_shape hres
              exact ConfigErr.noConfusion hs

theorem checkBasics_fields {c c2 : Config} (h : checkBasics c = .ok c2) :
    c2.acl = c.acl ∧ c2.aclMongo = c.aclMongo ∧ c2.aclXorm = c.aclXorm ∧
    c2.extAuthz = c.extAuthz ∧ c2.pluginAuthz = c.pluginAuthz ∧
    c2.gitHubAuth = c.gitHubAuth ∧ c2.gitlabAuth = c.gitlabAuth := by
  unfold checkBasics at h
  split at h
  · exact Except.noConfusion h
  · split at h
    · exact Except.noConfusion h
    · simp only [] at h
      split at h
      · exact Except.noConfusion h
      · split at h
        · exact Except.noConfusion h
        · split at h
          · exact Except.noConfusion h
          · split at h
            · exact Except.noConfusion h
            · split at h
              · exact Except.noConfusion h
              · simp only [Except.ok.injEq] at h
                subst h
                exact ⟨rfl, rfl, rfl, rfl, rfl, rfl, rfl⟩

theorem checkGoogleSection_fields {env : Env} {c c2 : Config}
    (h : checkGoogleSection env c = .ok c2) :
    c2.acl = c.acl ∧ c2.aclMongo = c.aclMongo ∧ c2.aclXorm = c.aclXorm ∧
    c2.extAuthz = c.extAuthz ∧ c2.pluginAuthz = c.pluginAuthz ∧
    c2.gitHubAuth = c.gitHubAuth ∧ c2.gitlabAuth = c.gitlabAuth := by
  unfold checkGoogleSection at h
  split at h
  · simp only [Except.ok.injEq] at h
    subst h
    exact ⟨rfl, rfl, rfl, rfl, rfl, rfl, rfl⟩
  · split at h
    · exact Except.noConfusion h
    · simp only [Except.ok.injEq] at h
      subst h
      exact ⟨rfl, rfl, rfl, rfl, rfl, rfl, rfl⟩

theorem checkGitHubSection_fields {env : Env} {c c2 : Config}
    (h : checkGitHubSection env c = .ok c2) :
    c2.acl = c.acl ∧ c2.aclMongo = c.aclMongo ∧ c2.aclXorm = c.aclXorm ∧
    c2.extAuthz = c.extAuthz ∧ c2.pluginAuthz = c.pluginAuthz ∧
    c2.gitlabAuth = c.gitlabAuth := by
  unfold checkGitHubSection at h
  split at h
  · simp only [Except.ok.injEq] at h
    subst h
    exact ⟨rfl, rfl, rfl, rfl, rfl, rfl⟩
  · split at h
    · exact Except.noConfusion h
    · simp only [Except.ok.injEq] at h
      subst h
      exact ⟨rfl, rfl, rfl, rfl, rfl, rfl⟩

theorem checkOIDCSection_fields {env : Env} {c c2 : Config}
    (h : checkOIDCSection env c = .ok c2) :
    c2.acl = c.acl ∧ c2.aclMongo = c.aclMongo ∧ c2.aclXorm = c.aclXorm ∧
    c2.extAuthz = c.extAuthz ∧ c2.pluginAuthz = c.pluginAuthz ∧
    c2.gitHubAuth = c.gitHubAuth ∧ c2.gitlabAuth = c.gitlabAuth := by
  unfold checkOIDCSection at h
  split at h
  · simp only [Except.ok.injEq] at h
    subst h
    exact ⟨rfl, rfl, rfl, rfl, rfl, rfl, rfl⟩
  · split at h
    · exact Except.noConfusion h
    · simp only [Except.ok.injEq] at h
      subst h
      exact ⟨rfl, rfl, rfl, rfl, rfl, rfl, rfl⟩

theorem checkGitlabSection_fields {env : Env} {c c2 : Config}
    (h : checkGitlabSection env c = .ok c2) :
    c2.acl = c.acl ∧ c2.aclMongo = c.aclMongo ∧ c2.aclXorm = c.aclXorm ∧
    c2.extAuthz = c.extAuthz ∧ c2.pluginAuthz = c.pluginAuthz ∧
    c2.gitHubAuth = c.gitHubAuth := by
  unfold checkGitlabSection at h
  split at h
  · simp only [Except.ok.injEq] at h
    subst h
    exact ⟨rfl, rfl, rfl, rfl, rfl, rfl⟩
  · split at h
    · exact Except.noConfusion h
    · simp only [Except.ok.injEq] at h
      subst h
      exact ⟨rfl, rfl, rfl, rfl, rfl, rfl⟩

theorem checkAuthBackends_fields {env : Env} {c c6 : Config}
    (h : checkAuthBackends env c = .ok c6) :
    c6.acl = c.acl ∧ c6.aclMongo = c.aclMongo ∧ c6.aclXorm = c.aclXorm ∧
    c6.extAuthz = c.extAuthz ∧ c6.pluginAuthz = c.pluginAuthz := by
  unfold checkAuthBackends at h
  split at h
  · exact Except.noConfusion h
  · split at h
    · exact Except.noConfusion h
    · split at h
      · exact Except.noConfusion h
      · rename_i c3 hg
        split at h
        · exact Except.noConfusion h
        · rename_i c4 hh
          split at h
          · exact Except.noConfusion h
          · rename_i c5 ho
            split at h
            · exact Except.noConfusion h
            · rename_i c6b hgl
              split at h
              · exact Except.noConfusion h
              · simp only [Except.ok.injEq] at h
                subst h
                have p1 := checkGoogleSection_fields hg
                have p2 := checkGitHubSection_fields hh
                have p3 := checkOIDCSection_fields ho
                have p4 := checkGitlabSection_fields hgl
                refine ⟨?_, ?_, ?_, ?_, ?_⟩
                · rw [p4.1, p3.1, p2.1, p1.1]
                · rw [p4.2.1, p3.2.1, p2.2.1, p1.2.1]
                · rw [p4.2.2.1, p3.2.2.1, p2.2.2.1, p1.2.2.1]
                · rw [p4.2.2.2.1, p3.2.2.2.1, p2.2.2.2.1, p1.2.2.2.1]
                · rw [p4.2.2.2.2.1, p3.2.2.2.2.1, p2.2.2.2.2.1, p1.2.2.2.2.1]

/-- C1 counterexample: a configuration whose only configured authorizer is
`casbin_authz` is rejected by `validate` with the `ACL is empty` error —
the check at the source line 285 does not consult `CasbinAuthz`. -/
theorem validate_casbin_only_acl_empty :
    cfgCasbinOnly.casbinAuthz ≠ none ∧
    validate envTrivial cfgCasbinOnly = .error .aclEmpty := by
  constructor
  · intro h
    exact Option.noConfusion h
  · rfl

/-- C1 (amended): a configuration with at least one of the authorizers
`acl`, `acl_mongo`, `acl_xorm`, `ext_authz`, `plugin_authz` — `casbin_authz`
is not in the consulted list — never receives the `ACL is empty` error from
`validate`. -/
theorem validate_authorizer_no_acl_empty (env : Env) (c : Config)
    (h : c.acl ≠ none ∨ c.aclMongo ≠ none ∨ c.aclXorm ≠ none ∨
      c.extAuthz ≠ none ∨ c.pluginAuthz ≠ none) :
    validate env c ≠ .error .aclEmpty := by
  intro hv
  unfold validate at hv
  split at hv
  · rename_i e heq
    simp only [Except.error.injEq] at hv
    subst hv
    exact checkBasics_ne_aclEmpty c heq
  · rename_i cb hbas
    split at hv
    · rename_i e heq
      simp only [Except.error.injEq] at hv
      subst hv
      exact checkAuthBackends_ne_aclEmpty _ _ heq
    · rename_i cab hab
      split at hv
      · rename_i e heq
        simp only [Except.error.injEq] at hv
        subst hv
        have hf1 := checkBasics_fields hbas
        have hf2 := checkAuthBackends_fields hab
        apply checkACLs_ne_aclEmpty env cab ?_ heq
        rcases h with h | h | h | h | h
        · exact Or.inl (by rw [hf2.1, hf1.1]; exact h)
        · exact Or.inr (Or.inl (by rw [hf2.2.1, hf1.2.1]; exact h))
        · exact Or.inr (Or.inr (Or.inl (by rw [hf2.2.2.1, hf1.2.2.1]; exact h)))
        · exact Or.inr (Or.inr (Or.inr (Or.inl
            (by rw [hf2.2.2.2.1, hf1.2.2.2.1]; exact h))))
        · exact Or.inr (Or.inr (Or.inr (Or.inr
            (by rw [hf2.2.2.2.2, hf1.2.2.2.2.1]; exact h))))
      · exact Except.noConfusion hv

/-- Witness for the amended C1: the base config (static ACL configured)
does not get the `ACL is empty` error. -/
theorem validate_authorizer_no_acl_empty_witness :
    validate envTrivial cfgBase ≠ .error .aclEmpty :=
  validate_authorizer_no_acl_empty envTrivial cfgBase
    (Or.inl (fun h => Option.noConfusion h))

theorem checkGitHubAuth_redisMissing {env : Env} {ghac : GitHubAuthConfig}
    {rdb : GitHubRedisStoreConfig} (h1 : ghac.redisTokenDB = some rdb)
    (h2 : rdb.clientOptions = none) (h3 : rdb.clusterOptions = none) :
    ∀ g, checkGitHubAuth env ghac ≠ .ok g := by
  intro g hok
  unfold checkGitHubAuth at hok
  split at hok
  · exact Except.noConfusion hok
  · simp only [] at hok
    split at hok
    · exact Except.noConfusion hok
    · split at hok
      · exact Except.noConfusion hok
      · split at hok
        · exact Except.noConfusion hok
        · rename_i hc3
          apply hc3
          right; right
          simp [redisIncomplete, h1, h2, h3]

theorem checkGitlabAuth_redisMissing {env : Env} {glab : GitlabAuthConfig}
    {rdb : GitHubRedisStoreConfig} (h1 : glab.redisTokenDB = some rdb)
    (h2 : rdb.clientOptions = none) (h3 : rdb.clusterOptions = none) :
    ∀ g, checkGitlabAuth env glab ≠ .ok g := by
  intro g hok
  unfold checkGitlabAuth at hok
  split at hok
  · exact Except.noConfusion hok
  · simp only [] at hok
    split at hok
    · exact Except.noConfusion hok
    · split at hok
      · exact Except.noConfusion hok
      · split at hok
        · exact Except.noConfusion hok
        · rename_i hc3
          apply hc3
          right; right
          simp [redisIncomplete, h1, h2, h3]

theorem checkGitHubSection_ok_inv {env : Env} {c c2 : Config}
    {ghac : GitHubAuthConfig} (h : checkGitHubSection env c = .ok c2)
    (hg : c.gitHubAuth = some ghac) : ∃ g, checkGitHubAuth env ghac = .ok g := by
  unfold checkGitHubSection at h
  rw [hg] at h
  simp only [] at h
  split at h
  · exact Except.noConfusion h
  · rename_i g heq
    exact ⟨g, heq⟩

theorem checkGitlabSection_ok_inv {env : Env} {c c2 : Config}
    {glab : GitlabAuthConfig} (h : checkGitlabSection env c = .ok c2)
    (hg : c.gitlabAuth = some glab) : ∃ g, checkGitlabAuth env glab = .ok g := by
  unfold checkGitlabSection at h
  rw [hg] at h
  simp only [] at h
  split at h
  · exact Except.noConfusion h
  · rename_i g heq
    exact ⟨g, heq⟩

theorem checkAuthBackends_github_redis {env : Env} {c : Config}
    {ghac : GitHubAuthConfig} {rdb : GitHubRedisStoreConfig}
    (hg : c.gitHubAuth = some ghac) (h1 : ghac.redisTokenDB = some rdb)
    (h2 : rdb.clientOptions = none) (h3 : rdb.clusterOptions = none) :
    ∀ c6, checkAuthBackends env c ≠ .ok c6 := by
  intro c6 hok
  unfold checkAuthBackends at hok
  split at hok
  · exact Except.noConfusion hok
  · split at hok
    · exact Except.noConfusion hok
    · split at hok
      · exact Except.noConfusion hok
      · rename_i c3 hgoog
        split at hok
        · exact Except.noConfusion hok
        · rename_i c4 hgith
          have hpres := checkGoogleSection_fields hgoog
          obtain ⟨g, hgok⟩ := checkGitHubSection_ok_inv hgith
            (hpres.2.2.2.2.2.1.trans hg)
          exact checkGitHubAuth_redisMissing h1 h2 h3 g hgok

theorem checkAuthBackends_gitlab_redis {env : Env} {c : Config}
    {glab : GitlabAuthConfig} {rdb : GitHubRedisStoreConfig}
    (hg : c.gitlabAuth = some glab) (h1 : glab.redisTokenDB = some rdb)
    (h2 : rdb.clientOptions = none) (h3 : rdb.clusterOptions = none) :
    ∀ c6, checkAuthBackends env c ≠ .ok c6 := by
  intro c6 hok
  unfold checkAuthBackends at hok
  split at hok
  · exact Except.noConfusion hok
  · split at hok
    · exact Except.noConfusion hok
    · split at hok
      · exact Except.noConfusion hok
      · rename_i c3 hgoog
        split at hok
        · exact Except.noConfusion hok
        · rename_i c4 hgith
          split at hok
          · exact Except.noConfusion hok
          · rename_i c5 hoidc
            split at hok
            · exact Except.noConfusion hok
            · rename_i c6b hglab
              have p1 := checkGoogleSection_fields hgoog
              have p2 := checkGitHubSection_fields hgith
              have p3 := checkOIDCSection_fields hoidc
              obtain ⟨g, hgok⟩ := checkGitlabSection_ok_inv hglab
                ((p3.2.2.2.2.2.2.trans (p2.2.2.2.2.2.trans p1.2.2.2.2.2.2)).trans hg)
              exact checkGitlabAuth_redisMissing h1 h2 h3 g hgok

theorem validate_github_redis_reject {env : Env} {c : Config}
    {ghac : GitHubAuthConfig} {rdb : GitHubRedisStoreConfig}
    (hg : c.gitHubAuth = some ghac) (h1 : ghac.redisTokenDB = some rdb)
    (h2 : rdb.clientOptions = none) (h3 : rdb.clusterOptions = none) :
    ∀ c2, validate env c ≠ .ok c2 := by
  intro c2 hok
  unfold validate at hok
  split at hok
  · exact Except.noConfusion hok
  · rename_i cb hbas
    split at hok
    · exact Except.noConfusion hok
    · rename_i cab hab
      have hf := checkBasics_fields hbas
      exact checkAuthBackends_github_redis (hf.2.2.2.2.2.1.trans hg) h1 h2 h3 cab hab

theorem validate_gitlab_redis_reject {env : Env} {c : Config}
    {glab : GitlabAuthConfig} {rdb : GitHubRedisStoreConfig}
    (hg : c.gitlabAuth = some glab) (h1 : glab.redisTokenDB = some rdb)
    (h2 : rdb.clientOptions = none) (h3 : rdb.clusterOptions = none) :
    ∀ c2, validate env c ≠ .ok c2 := by
  intro c2 hok
  unfold validate at hok
  split at hok
  · exact Except.noConfusion hok
  · rename_i cb hbas
    split at hok
    · exact Except.noConfusion hok
    · rename_i cab hab
      have hf := checkBasics_fields hbas
      exact checkAuthBackends_gitlab_redis (hf.2.2.2.2.2.2.trans hg) h1 h2 h3 cab hab

/-- C7: a GitHub (or Gitlab) auth config with non-empty client id and
secret whose `redis_token_db` is present but has neither single-client nor
cluster options makes `validate` fail, even when another TokenDB kind
(a non-empty `token_db` path or a `gcs_token_db`) is also configured. -/
theorem validate_redis_partial_rejected :
    (∀ (env : Env) (c : Config) (ghac : GitHubAuthConfig)
        (rdb : GitHubRedisStoreConfig),
      c.gitHubAuth = some ghac → ghac.clientId ≠ "" → ghac.clientSecret ≠ "" →
      ghac.redisTokenDB = some rdb → rdb.clientOptions = none →
      rdb.clusterOptions = none →
      (ghac.tokenDB ≠ "" ∨ ghac.gcsTokenDB ≠ none) →
      ∀ c2, validate env c ≠ .ok c2) ∧
    (∀ (env : Env) (c : Config) (glab : GitlabAuthConfig)
        (rdb : GitHubRedisStoreConfig),
      c.gitlabAuth = some glab → glab.clientId ≠ "" → glab.clientSecret ≠ "" →
      glab.redisTokenDB = some rdb → rdb.clientOptions = none →
      rdb.clusterOptions = none →
      (glab.tokenDB ≠ "" ∨ glab.gcsTokenDB ≠ none) →
      ∀ c2, validate env c ≠ .ok c2) :=
  ⟨fun _ _ _ _ hg _ _ h1 h2 h3 _ => validate_github_redis_reject hg h1 h2 h3,
   fun _ _ _ _ hg _ _ h1 h2 h3 _ => validate_gitlab_redis_reject hg h1 h2 h3⟩

/-- Witness for C7 on concrete GitHub and Gitlab configs with a partial
redis TokenDB next to a non-empty `token_db` path. -/
theorem validate_redis_partial_rejected_witness :
    validate envTrivial cfgGithubRedis ≠ .ok cfgGithubRedis ∧
    validate envTrivial cfgGitlabRedis ≠ .ok cfgGitlabRedis :=
  ⟨validate_redis_partial_rejected.1 envTrivial cfgGithubRedis ghacRedis
      ⟨none, none⟩ rfl (by decide) (by decide) rfl rfl rfl
      (Or.inl (by decide)) cfgGithubRedis,
   validate_redis_partial_rejected.2 envTrivial cfgGitlabRedis glabRedis
      ⟨none, none⟩ rfl (by decide) (by decide) rfl rfl rfl
      (Or.inl (by decide)) cfgGitlabRedis⟩

/-- C4: for a configuration accepted by `validate`: a configured server
keypair with no token keypair makes `LoadConfig` succeed with the token
keypair equal to the server keypair; no keypair at all fails; a keypair
with exactly one of its certificate/key files given fails. -/
theorem loadconfig_keypair_policy (env : Env)
    (load : String → String → Except String Keypair) (stat : String → Bool)
    (c c2 : Config) (hv : validate env c = .ok c2) :
    (∀ kp : Keypair, c2.server.certFile ≠ "" → c2.server.keyFile ≠ "" →
      c2.token.certFile = "" → c2.token.keyFile = "" →
      load c2.server.certFile c2.server.keyFile = .ok kp →
      LoadConfig env load stat c = .ok ⟨c2, some kp, kp⟩) ∧
    (c2.server.certFile = "" → c2.server.keyFile = "" →
      c2.token.certFile = "" → c2.token.keyFile = "" →
      LoadConfig env load stat c = .error .tokenKeypairNone) ∧
    (((c2.server.certFile = "" ∧ c2.server.keyFile ≠ "") ∨
      (c2.server.certFile ≠ "" ∧ c2.server.keyFile = "") ∨
      (c2.token.certFile = "" ∧ c2.token.keyFile ≠ "") ∨
      (c2.token.certFile ≠ "" ∧ c2.token.keyFile = "")) →
      ∀ r, LoadConfig env load stat c ≠ .ok r) := by
  have hL : LoadConfig env load stat c = loadKeypairs load stat c2 := by
    unfold LoadConfig
    rw [hv]
  refine ⟨?_, ?_, ?_⟩
  · intro kp hc hk htc htk hload
    rw [hL]
    unfold loadKeypairs loadServerKeys loadTokenKeys
    simp [hc, hk, htc, htk, hload]
  · intro hc hk htc htk
    rw [hL]
    unfold loadKeypairs loadServerKeys loadTokenKeys
    simp [hc, hk, htc, htk]
  · intro hcase r
    rw [hL]
    intro hok
    unfold loadKeypairs at hok
    rcases hcase with ⟨h1, h2⟩ | ⟨h1, h2⟩ | ⟨h1, h2⟩ | ⟨h1, h2⟩
    · have hs : loadServerKeys load c2 = .error .serverKeypairIncomplete := by
        unfold loadServerKeys
        rw [if_pos (Or.inr h2), if_pos (Or.inl h1)]
      rw [hs] at hok
      exact Except.noConfusion hok
    · have hs : loadServerKeys load c2 = .error .serverKeypairIncomplete := by
        unfold loadServerKeys
        rw [if_pos (Or.inl h1), if_pos (Or.inr h2)]
      rw [hs] at hok
      exact Except.noConfusion hok
    · have ht : loadTokenKeys load c2 = .error .tokenKeypairIncomplete := by
        unfold loadTokenKeys
        rw [if_pos (Or.inr h2), if_pos (Or.inl h1)]
      rcases hsk : loadServerKeys load c2 with e | sk
      · rw [hsk] at hok
        exact Except.noConfusion hok
      · rw [hsk] at hok
        simp only [] at hok
        rw [ht] at hok
        exact Except.noConfusion hok
    · have ht : loadTokenKeys load c2 = .error .tokenKeypairIncomplete := by
        unfold loadTokenKeys
        rw [if_pos (Or.inl h1), if_pos (Or.inr h2)]
      rcases hsk : loadServerKeys load c2 with e | sk
      · rw [hsk] at hok
        exact Except.noConfusion hok
      · rw [hsk] at hok
        simp only [] at hok
        rw [ht] at hok
        exact Except.noConfusion hok

/-- Witness for C4: a concrete config with only a server keypair loads with
the token keypair equal to it; the keyless base config fails; a config with
only a certificate file fails. -/
theorem loadconfig_keypair_policy_witness :
    let loadW : String → String → Except String Keypair := fun a b => .ok ⟨a, b⟩
    let statW : String → Bool := fun _ => true
    LoadConfig envTrivial loadW statW cfgServerKeys =
      .ok ⟨cfgServerKeys, some ⟨"c.pem", "k.pem"⟩, ⟨"c.pem", "k.pem"⟩⟩ ∧
    LoadConfig envTrivial loadW statW cfgBase = .error .tokenKeypairNone ∧
    LoadConfig envTrivial loadW statW cfgCertOnly ≠
      .ok ⟨cfgBase, none, ⟨"", ""⟩⟩ := by
  refine ⟨?_, ?_, ?_⟩
  · exact (loadconfig_keypair_policy envTrivial _ _ cfgServerKeys cfgServerKeys
      rfl).1 ⟨"c.pem", "k.pem"⟩ (by decide) (by decide) rfl rfl rfl
  · exact (loadconfig_keypair_policy envTrivial _ _ cfgBase cfgBase rfl).2.1
      rfl rfl rfl rfl
  · exact (loadconfig_keypair_policy envTrivial (fun a b => .ok ⟨a, b⟩)
      (fun _ => true) cfgCertOnly cfgCertOnly rfl).2.2
      (Or.inr (Or.inl ⟨by decide, rfl⟩)) ⟨cfgBase, none, ⟨"", ""⟩⟩
